import Mathlib

/-!
Verification of the RESP codec, stream, store, replication and RDB logic of a
Redis-compatible server (Rust sources: `data.rs`, `stream.rs`, `store.rs`,
`replica.rs`, `master.rs`, `rdb.rs`).

Bytes are modelled as natural numbers (the values of the `u8`s); byte buffers
as `List Nat`.  Machine integers (`u64`, `i64`, `usize`) are modelled as
`Nat`/`Int`; range checks are made explicit exactly where the Rust code's
`parse` can fail on out-of-range input.  Fallible Rust code returns
`Except RErr`; `RErr.panic` models a Rust panic (failed `assert!`,
out-of-bounds index, `unwrap` of an error, `todo!`, or explicit `panic!`),
`RErr.other` models any other non-`DecodeError` `anyhow` error.
-/

/-- Errors of the embedded Rust code.  `needMoreBytes` and
`cannotDecodeNumber` are the two variants of `DecodeError` in `data.rs`;
`other` stands for any other `anyhow::Error`; `panic` models a Rust panic. -/
inductive RErr where
  | needMoreBytes
  | cannotDecodeNumber
  | other
  | panic
deriving Repr, DecidableEq

/-- Recursion core of `natDigits`; the first argument is fuel, always called
with fuel ≥ the number being printed so the fallback case is unreachable.
Structural recursion on the fuel keeps the function kernel-computable. -/
def natDigitsGo : Nat → Nat → List Nat
  | 0, n => [48 + n % 10]
  | f + 1, n => if n < 10 then [48 + n] else natDigitsGo f (n / 10) ++ [48 + n % 10]

/-- Decimal digit bytes of `n`, most significant first: the bytes of Rust's
`n.to_string()` for an unsigned integer. -/
def natDigits (n : Nat) : List Nat := natDigitsGo n n

/-- Value of a list of decimal digit bytes, the accumulator pass of a decimal
parse. -/
def digitsToNat (ds : List Nat) : Nat :=
  ds.foldl (fun a d => a * 10 + (d - 48)) 0

theorem natDigitsGo_fuel (f : Nat) : ∀ g n, n ≤ f → n ≤ g →
    natDigitsGo f n = natDigitsGo g n := by
  induction f with
  | zero =>
      intro g n hf hg
      interval_cases n
      cases g <;> simp [natDigitsGo]
  | succ f ih =>
      intro g n hf hg
      cases g with
      | zero =>
          interval_cases n
          simp [natDigitsGo]
      | succ g =>
          simp only [natDigitsGo]
          by_cases h10 : n < 10
          · simp [h10]
          · simp only [h10, if_false]
            rw [ih g (n / 10) (by omega) (by omega)]

/-- The recurrence that `natDigits` satisfies (the shape of the Rust loop in
`to_string`). -/
theorem natDigits_eq (n : Nat) :
    natDigits n = if n < 10 then [48 + n] else natDigits (n / 10) ++ [48 + n % 10] := by
  show natDigitsGo n n = _
  cases n with
  | zero => simp [natDigitsGo]
  | succ m =>
      simp only [natDigitsGo]
      by_cases h10 : m + 1 < 10
      · simp [h10]
      · simp only [h10, if_false]
        rw [natDigitsGo_fuel m ((m + 1) / 10) ((m + 1) / 10) (by omega) (by omega)]
        rfl

theorem natDigits_ne_nil (n : Nat) : natDigits n ≠ [] := by
  rw [natDigits_eq]
  split <;> simp

theorem natDigits_all_digit (n : Nat) : ∀ d ∈ natDigits n, 48 ≤ d ∧ d ≤ 57 := by
  induction n using Nat.strong_induction_on with
  | _ n ih =>
    rw [natDigits_eq]
    split
    · intro d hd
      simp only [List.mem_singleton] at hd
      omega
    · intro d hd
      rw [List.mem_append] at hd
      rcases hd with hd | hd
      · exact ih (n / 10) (by omega) d hd
      · simp only [List.mem_singleton] at hd
        omega

theorem digitsToNat_natDigits (n : Nat) : digitsToNat (natDigits n) = n := by
  induction n using Nat.strong_induction_on with
  | _ n ih =>
    rw [natDigits_eq]
    split
    · simp only [digitsToNat, List.foldl_cons, List.foldl_nil]
      omega
    · have h10 : n / 10 < n := by omega
      have := ih (n / 10) h10
      simp only [digitsToNat, List.foldl_append, List.foldl_cons, List.foldl_nil] at *
      rw [this]
      omega

/-- Bytes of Rust's `i.to_string()` for an `i64`-valued `i`. -/
def intToBytes (i : Int) : List Nat :=
  if i < 0 then 45 :: natDigits i.natAbs else natDigits i.toNat

theorem intToBytes_ne_nil (i : Int) : intToBytes i ≠ [] := by
  rw [intToBytes]
  split
  · simp
  · exact natDigits_ne_nil _

/-- RESP values (`enum Data` of `data.rs`).  Payloads of simple strings, bulk
strings and unknowns are raw byte vectors (`Vec<u8>`); a simple error holds the
UTF-8 bytes of its Rust `String`. -/
inductive Data where
  | simpleString (s : List Nat)
  | bulkString (s : List Nat)
  | nullBulkString
  | integer (i : Int)
  | array (vs : List Data)
  | simpleError (e : List Nat)
  | unknown (s : List Nat)

mutual

/-- `Data::encode` of `data.rs`.  Byte 43 is `+`, 36 is `$`, 58 is `:`,
42 is `*`, 45 is `-`, 13/10 are CRLF.  The source panics on
`Data::Unknown`; here `unknown` maps to `[]` and every theorem about `encode`
assumes `noUnknown`. -/
def Data.encode : Data → List Nat
  | .simpleString s => 43 :: s ++ [13, 10]
  | .bulkString s => 36 :: natDigits s.length ++ [13, 10] ++ s ++ [13, 10]
  | .nullBulkString => [36, 45, 49, 13, 10]
  | .integer i => 58 :: intToBytes i ++ [13, 10]
  | .array vs => 42 :: natDigits vs.length ++ [13, 10] ++ encodeList vs
  | .simpleError e => 45 :: e ++ [13, 10]
  | .unknown _ => []

/-- Concatenated encodings of the elements of an array (the `for` loop of
`encode_array`). -/
def encodeList : List Data → List Nat
  | [] => []
  | d :: ds => d.encode ++ encodeList ds

end

mutual

/-- `Data::num_bytes` of `data.rs`.  `usize::MAX` for `Unknown`. -/
def Data.num_bytes : Data → Nat
  | .simpleString s => 1 + s.length + 2
  | .bulkString s => 1 + (natDigits s.length).length + 2 + s.length + 2
  | .nullBulkString => 5
  | .array vs => 1 + (natDigits vs.length).length + 2 + numBytesList vs
  | .simpleError e => 1 + e.length + 2
  | .unknown _ => 18446744073709551615
  | .integer i => 1 + (intToBytes i).length + 2

/-- Sum of `num_bytes` over array elements. -/
def numBytesList : List Data → Nat
  | [] => 0
  | d :: ds => d.num_bytes + numBytesList ds

end

mutual

/-- True when the value contains no `Unknown` constructor anywhere, i.e. the
value is one of the five wire types the codec can produce. -/
def Data.noUnknown : Data → Bool
  | .simpleString _ => true
  | .bulkString _ => true
  | .nullBulkString => true
  | .integer _ => true
  | .array vs => noUnknownList vs
  | .unknown _ => false
  | .simpleError _ => true

/-- `noUnknown` on every element of a list. -/
def noUnknownList : List Data → Bool
  | [] => true
  | d :: ds => d.noUnknown && noUnknownList ds

end

mutual

theorem encode_length_eq_num_bytes (v : Data) (h : v.noUnknown = true) :
    v.encode.length = v.num_bytes := by
  cases v with
  | simpleString s => simp [Data.encode, Data.num_bytes]; omega
  | bulkString s => simp [Data.encode, Data.num_bytes]; omega
  | nullBulkString => simp [Data.encode, Data.num_bytes]
  | integer i => simp [Data.encode, Data.num_bytes]; omega
  | array vs =>
      simp only [Data.noUnknown] at h
      simp [Data.encode, Data.num_bytes, encodeList_length_eq_num_bytes vs h]
      omega
  | simpleError e => simp [Data.encode, Data.num_bytes]; omega
  | unknown s => simp [Data.noUnknown] at h

theorem encodeList_length_eq_num_bytes (vs : List Data) (h : noUnknownList vs = true) :
    (encodeList vs).length = numBytesList vs := by
  cases vs with
  | nil => simp [encodeList, numBytesList]
  | cons d ds =>
      simp only [noUnknownList, Bool.and_eq_true] at h
      simp [encodeList, numBytesList, encode_length_eq_num_bytes d h.1,
        encodeList_length_eq_num_bytes ds h.2]

end

/-- C10: for every `Data` value built from the five wire types (no `Unknown`
anywhere, so that `encode` is defined), `num_bytes v` equals the length of
`encode v`; this is the invariant behind the master's byte-offset
accounting. -/
theorem c10_num_bytes_eq_encode_length (v : Data) (h : v.noUnknown = true) :
    v.num_bytes = v.encode.length :=
  (encode_length_eq_num_bytes v h).symm

/-- C10 witness: the invariant evaluated at the propagated array
`SET k v` (`*3\r\n$3\r\nSET\r\n$1\r\nk\r\n$1\r\nv\r\n`). -/
theorem c10_witness :
    (Data.array [Data.bulkString [83, 69, 84], Data.bulkString [107],
      Data.bulkString [118]]).num_bytes =
    (Data.array [Data.bulkString [83, 69, 84], Data.bulkString [107],
      Data.bulkString [118]]).encode.length :=
  c10_num_bytes_eq_encode_length _ (by decide)

/-- Byte is an ASCII decimal digit (`u8::is_ascii_digit`). -/
def isAsciiDigit (b : Nat) : Bool := 48 ≤ b && b ≤ 57

/-- `char::is_numeric(byte as char)` of the source: the cast maps a byte to
the Latin-1 code point of the same value, so besides the ASCII digits the
Latin-1 numerics superscript one/two/three and the vulgar fractions
(0xB9, 0xB2, 0xB3, 0xBC, 0xBD, 0xBE) also count as numeric. -/
def is_numeric (b : Nat) : Bool :=
  isAsciiDigit b || b == 178 || b == 179 || b == 185 || b == 188 || b == 189 || b == 190

/-- `decode_unsigned_int` of `data.rs`: take bytes while `is_numeric`, fail
with `CannotDecodeNumber` when none, else `num_str.parse::<usize>()`, which
succeeds exactly when every taken byte is an ASCII digit and the value fits
in a `usize` (64-bit); its failure is a plain error propagated by `?`. -/
def decode_unsigned_int (buf : List Nat) : Except RErr (Nat × Nat) :=
  let numStr := buf.takeWhile is_numeric
  if numStr.isEmpty then .error .cannotDecodeNumber
  else if numStr.all isAsciiDigit && digitsToNat numStr < 18446744073709551616 then
    .ok (digitsToNat numStr, numStr.length)
  else .error .other

/-- Rust's `str::parse::<i64>`: optional sign, then one or more ASCII digits,
value within the `i64` range.  The preceding `String::from_utf8` check of the
source is subsumed: any byte string accepted here is ASCII, and every
rejection (of either step) is the same plain error. -/
def parseI64 (bs : List Nat) : Except RErr Int :=
  match bs with
  | [] => .error .other
  | b :: rest =>
    let signDigits := if b == 45 then (true, rest)
      else if b == 43 then (false, rest) else (false, bs)
    let digits := signDigits.2
    if digits.isEmpty then .error .other
    else if digits.all isAsciiDigit then
      let i : Int := if signDigits.1 then -(digitsToNat digits : Int) else (digitsToNat digits : Int)
      if -(2 ^ 63) ≤ i && i ≤ 2 ^ 63 - 1 then .ok i else .error .other
    else .error .other

/-- `decode_signed_int` of `data.rs`.  Mirrors the source exactly, including
the quirk that when `buf[0]` is not `-` the sign test reads `buf[1]` (looking
for `+` there), which panics on a one-byte buffer. -/
def decode_signed_int (buf : List Nat) : Except RErr (Int × Nat) :=
  match buf[0]? with
  | none => .error .panic
  | some b0 =>
    if isAsciiDigit b0 || b0 == 45 || b0 == 43 then
      let currR : Except RErr Nat :=
        if b0 == 45 then .ok 1
        else
          match buf[1]? with
          | none => .error .panic
          | some b1 => .ok (if b1 == 43 then 1 else 0)
      match currR with
      | .error e => .error e
      | .ok curr =>
        match decode_unsigned_int (buf.drop curr) with
        | .error e => .error e
        | .ok (_v, len) =>
          let total := curr + len
          match parseI64 (buf.take total) with
          | .error e => .error e
          | .ok i => .ok (i, total)
    else .error .cannotDecodeNumber

/-- Bytes of a UTF-8 continuation (`0x80..=0xBF`). -/
def isCont (b : Nat) : Bool := 128 ≤ b && b ≤ 191

/-- Validity of a byte sequence as UTF-8, the success condition of Rust's
`String::from_utf8`. -/
def isValidUtf8 : List Nat → Bool
  | [] => true
  | b :: rest =>
    if b ≤ 127 then isValidUtf8 rest
    else if 194 ≤ b && b ≤ 223 then
      match rest with
      | b1 :: r => isCont b1 && isValidUtf8 r
      | [] => false
    else if b == 224 then
      match rest with
      | b1 :: b2 :: r => (160 ≤ b1 && b1 ≤ 191) && isCont b2 && isValidUtf8 r
      | _ => false
    else if (225 ≤ b && b ≤ 236) || b == 238 || b == 239 then
      match rest with
      | b1 :: b2 :: r => isCont b1 && isCont b2 && isValidUtf8 r
      | _ => false
    else if b == 237 then
      match rest with
      | b1 :: b2 :: r => (128 ≤ b1 && b1 ≤ 159) && isCont b2 && isValidUtf8 r
      | _ => false
    else if b == 240 then
      match rest with
      | b1 :: b2 :: b3 :: r => (144 ≤ b1 && b1 ≤ 191) && isCont b2 && isCont b3 && isValidUtf8 r
      | _ => false
    else if 241 ≤ b && b ≤ 243 then
      match rest with
      | b1 :: b2 :: b3 :: r => isCont b1 && isCont b2 && isCont b3 && isValidUtf8 r
      | _ => false
    else if b == 244 then
      match rest with
      | b1 :: b2 :: b3 :: r => (128 ≤ b1 && b1 ≤ 143) && isCont b2 && isCont b3 && isValidUtf8 r
      | _ => false
    else false

/-- `decode_bulk_string` of `data.rs`.  Byte 36 is `$`, 45 is `-`.  A failed
`assert` or out-of-range index is `.panic`. -/
def decode_bulk_string (buf : List Nat) : Except RErr (Data × Nat) :=
  if buf.length < 4 then .error .needMoreBytes
  else if buf[0]? ≠ some 36 then .error .panic
  else if buf[1]? = some 45 then
    if buf.length < 5 then .error .needMoreBytes
    else if buf.take 5 ≠ [36, 45, 49, 13, 10] then .error .panic
    else .ok (.nullBulkString, 5)
  else
    match decode_unsigned_int (buf.drop 1) with
    | .error e => .error e
    | .ok (length, nb) =>
      let curr := 1 + nb
      if buf.length < curr + 2 then .error .needMoreBytes
      else if buf[curr]? ≠ some 13 then .error .panic
      else if buf[curr + 1]? ≠ some 10 then .error .panic
      else
        let curr2 := curr + 2
        if buf.length < curr2 + length then .error .needMoreBytes
        else
          let s := (buf.drop curr2).take length
          let curr3 := curr2 + length
          if buf.length < curr3 + 2 then .error .needMoreBytes
          else if buf[curr3]? ≠ some 13 then .error .panic
          else if buf[curr3 + 1]? ≠ some 10 then .error .panic
          else .ok (.bulkString s, curr3 + 2)

/-- `decode_simple_string` of `data.rs`.  Byte 43 is `+`.  The scan loop
stops at the first CR or at the end of the buffer; the content
`buf[1..curr]` is exactly the scanned prefix. -/
def decode_simple_string (buf : List Nat) : Except RErr (Data × Nat) :=
  if buf.length < 3 then .error .needMoreBytes
  else if buf[0]? ≠ some 43 then .error .panic
  else
    let scan := (buf.drop 1).takeWhile (fun b => b != 13)
    let curr := 1 + scan.length
    if buf.length < curr + 2 then .error .needMoreBytes
    else if buf[curr]? ≠ some 13 then .error .panic
    else if buf[curr + 1]? ≠ some 10 then .error .panic
    else .ok (.simpleString scan, curr + 2)

/-- `decode_simple_error` of `data.rs`.  Byte 45 is `-`.  Unlike
`decode_simple_string` there is no `buf.len() < cr_pos + 2` guard before the
two `assert_eq!` index accesses, so on a truncated buffer the indexing
`buf[cr_pos]` or `buf[cr_pos + 1]` goes out of bounds and panics
(modelled by the `none` cases).  The content `buf[1..cr_pos]` is the scanned
prefix and must be valid UTF-8 (`String::from_utf8` with `?`). -/
def decode_simple_error (buf : List Nat) : Except RErr (Data × Nat) :=
  if buf.length < 3 then .error .needMoreBytes
  else if buf[0]? ≠ some 45 then .error .panic
  else
    let scan := (buf.drop 1).takeWhile (fun b => b != 13)
    let crPos := 1 + scan.length
    if buf[crPos]? ≠ some 13 then .error .panic
    else if buf[crPos + 1]? ≠ some 10 then .error .panic
    else if isValidUtf8 scan then .ok (.simpleError scan, crPos + 2)
    else .error .other

/-- `decode_integer` of `data.rs`.  Byte 58 is `:`. -/
def decode_integer (buf : List Nat) : Except RErr (Data × Nat) :=
  if buf.length < 4 then .error .needMoreBytes
  else if buf[0]? ≠ some 58 then .error .panic
  else
    match decode_signed_int (buf.drop 1) with
    | .error e => .error e
    | .ok (i, nb) =>
      let curr := 1 + nb
      if buf.length < curr + 2 then .error .needMoreBytes
      else if buf[curr]? ≠ some 13 then .error .panic
      else if buf[curr + 1]? ≠ some 10 then .error .panic
      else .ok (.integer i, curr + 2)

/-- The element loop of `decode_array` (`for _ in 0..length`), parametrised
by the decoder used for each element; errors propagate immediately (`?`). -/
def decodeElemsGo (dec : List Nat → Except RErr (Data × Nat)) :
    List Nat → Nat → Except RErr (List Data × Nat)
  | _, 0 => .ok ([], 0)
  | buf, c + 1 =>
    match dec buf with
    | .error e => .error e
    | .ok (d, n) =>
      match decodeElemsGo dec (buf.drop n) c with
      | .error e => .error e
      | .ok (ds, m) => .ok (d :: ds, n + m)

/-- `decode_array` of `data.rs`, with the recursive element decoder passed
in.  Byte 42 is `*`.  Note the source calls `.unwrap()` on
`decode_unsigned_int`, so its failure is a panic, not a propagated error. -/
def decode_array (dec : List Nat → Except RErr (Data × Nat)) (buf : List Nat) :
    Except RErr (Data × Nat) :=
  if buf.length < 4 then .error .needMoreBytes
  else if buf[0]? ≠ some 42 then .error .panic
  else
    match decode_unsigned_int (buf.drop 1) with
    | .error _ => .error .panic
    | .ok (length, nb) =>
      let curr := 1 + nb
      if buf.length < curr + 2 then .error .needMoreBytes
      else if buf[curr]? ≠ some 13 then .error .panic
      else if buf[curr + 1]? ≠ some 10 then .error .panic
      else
        match decodeElemsGo dec (buf.drop (curr + 2)) length with
        | .error e => .error e
        | .ok (vs, consumed) => .ok (.array vs, curr + 2 + consumed)

/-- Recursion core of `Data::decode`; the fuel (first argument) bounds the
array-nesting depth.  Every nesting level consumes at least four bytes of
header before recursing, so with fuel `buf.length + 1` the fuel-exhaustion
case is unreachable.  Structural recursion on the fuel keeps the decoder
kernel-computable. -/
def decodeAux : Nat → List Nat → Except RErr (Data × Nat)
  | 0, _ => .error .panic
  | f + 1, buf =>
    match buf with
    | [] => .error .needMoreBytes
    | b :: _ =>
      if b = 43 then decode_simple_string buf
      else if b = 36 then decode_bulk_string buf
      else if b = 58 then decode_integer buf
      else if b = 42 then decode_array (decodeAux f) buf
      else if b = 45 then decode_simple_error buf
      else .error .other

/-- `Data::decode` of `data.rs`: dispatch on the first byte
(`+ $ : * -`), empty buffer is `NeedMoreBytes`, an unrecognized tag is a
plain error. -/
def Data.decode (buf : List Nat) : Except RErr (Data × Nat) :=
  decodeAux (buf.length + 1) buf

mutual

/-- Well-formedness of a value the codec can produce: one of the five wire
types (no `Unknown`), simple strings and simple errors contain no CR byte,
a simple error's payload is valid UTF-8 (the invariant of the Rust `String`
it is stored in), an integer is within the `i64` range, and bulk-string and
array lengths fit in a `usize` (automatic for Rust `Vec`s; made explicit here
because the decoder's `parse::<usize>` rejects larger lengths). -/
def Data.wf : Data → Bool
  | .simpleString s => s.all (fun b => b != 13)
  | .bulkString s => s.length < 18446744073709551616
  | .nullBulkString => true
  | .integer i => -(2 ^ 63) ≤ i && i ≤ 2 ^ 63 - 1
  | .array vs => (vs.length < 18446744073709551616 : Bool) && wfList vs
  | .simpleError e => e.all (fun b => b != 13) && isValidUtf8 e
  | .unknown _ => false

/-- `wf` on every element of a list. -/
def wfList : List Data → Bool
  | [] => true
  | d :: ds => d.wf && wfList ds

end

theorem takeWhile_append_all (p : Nat → Bool) (xs ys : List Nat)
    (h : ∀ x ∈ xs, p x = true) :
    (xs ++ ys).takeWhile p = xs ++ ys.takeWhile p := by
  induction xs with
  | nil => simp
  | cons a t ih =>
      simp only [List.cons_append, List.takeWhile_cons]
      rw [h a (by simp)]
      simp only [if_true]
      rw [ih (fun x hx => h x (by simp [hx]))]

theorem getElem_append_self (xs : List Nat) (b : Nat) (t : List Nat) :
    (xs ++ b :: t)[xs.length]? = some b := by
  rw [List.getElem?_append_right (Nat.le_refl _)]
  simp

theorem getElem_append_succ (xs : List Nat) (b c : Nat) (t : List Nat) :
    (xs ++ b :: c :: t)[xs.length + 1]? = some c := by
  rw [List.getElem?_append_right (by omega)]
  have h1 : xs.length + 1 - xs.length = 1 := by omega
  rw [h1]
  simp

theorem natDigits_all_ascii (n : Nat) : (natDigits n).all isAsciiDigit = true := by
  rw [List.all_eq_true]
  intro d hd
  have := natDigits_all_digit n d hd
  simp only [isAsciiDigit, Bool.and_eq_true, decide_eq_true_eq]
  omega

theorem decode_unsigned_int_digits (n : Nat) (rest : List Nat)
    (hn : n < 18446744073709551616)
    (hr : ∀ b, rest.head? = some b → is_numeric b = false) :
    decode_unsigned_int (natDigits n ++ rest) = .ok (n, (natDigits n).length) := by
  have hall : ∀ x ∈ natDigits n, is_numeric x = true := by
    intro x hx
    have := natDigits_all_digit n x hx
    simp only [is_numeric, isAsciiDigit, Bool.or_eq_true, Bool.and_eq_true, decide_eq_true_eq,
      beq_iff_eq]
    omega
  have hscan : (natDigits n ++ rest).takeWhile is_numeric = natDigits n := by
    rw [takeWhile_append_all _ _ _ hall]
    have : rest.takeWhile is_numeric = [] := by
      cases rest with
      | nil => rfl
      | cons b t =>
          have := hr b (by rfl)
          simp [List.takeWhile_cons, this]
    rw [this, List.append_nil]
  simp only [decode_unsigned_int, hscan]
  have hne : (natDigits n).isEmpty = false := by
    cases h : natDigits n with
    | nil => exact absurd h (natDigits_ne_nil n)
    | cons a t => rfl
  rw [hne]
  simp only [Bool.false_eq_true, if_false]
  rw [natDigits_all_ascii n, digitsToNat_natDigits n]
  simp [hn]

theorem decode_simple_string_encode (s : List Nat)
    (hs : s.all (fun b => b != 13) = true) (rest : List Nat) :
    decode_simple_string (43 :: s ++ 13 :: 10 :: rest) =
      .ok (.simpleString s, s.length + 3) := by
  have hscan : (s ++ 13 :: 10 :: rest).takeWhile (fun b => b != 13) = s := by
    rw [takeWhile_append_all _ _ _ (fun x hx => List.all_eq_true.mp hs x hx)]
    simp [List.takeWhile_cons]
  have hlen : ((43 :: s) ++ 13 :: 10 :: rest).length = s.length + 3 + rest.length := by
    simp only [List.length_append, List.length_cons]
    omega
  have hdrop : ((43 :: s) ++ 13 :: 10 :: rest).drop 1 = s ++ 13 :: 10 :: rest := by
    rw [List.cons_append, List.drop_one, List.tail_cons]
  have h0 : ((43 :: s) ++ 13 :: 10 :: rest)[0]? = some 43 := by
    rw [List.cons_append]
    simp
  have hidx1 : 1 + s.length = (43 :: s : List Nat).length := by
    simp only [List.length_cons]
    omega
  simp only [decode_simple_string, hlen, hdrop, hscan, h0]
  rw [if_neg (by omega)]
  rw [if_neg (by simp)]
  rw [if_neg (by omega)]
  rw [if_neg (by
    rw [hidx1, getElem_append_self]
    simp)]
  rw [if_neg (by
    rw [hidx1, getElem_append_succ]
    simp)]
  have hfin : 1 + s.length + 2 = s.length + 3 := by omega
  rw [hfin]

theorem natDigits_isEmpty_false (n : Nat) : (natDigits n).isEmpty = false := by
  cases h : natDigits n with
  | nil => exact absurd h (natDigits_ne_nil n)
  | cons a t => rfl

theorem natDigits_exists_cons (n : Nat) :
    ∃ d t, natDigits n = d :: t ∧ 48 ≤ d ∧ d ≤ 57 := by
  cases h : natDigits n with
  | nil => exact absurd h (natDigits_ne_nil n)
  | cons d t =>
      have hd : d ∈ natDigits n := by
        rw [h]
        exact List.mem_cons_self d t
      exact ⟨d, t, rfl, (natDigits_all_digit n d hd).1, (natDigits_all_digit n d hd).2⟩

theorem decode_simple_error_encode (e : List Nat)
    (he : e.all (fun b => b != 13) = true) (hu : isValidUtf8 e = true)
    (rest : List Nat) :
    decode_simple_error (45 :: e ++ 13 :: 10 :: rest) =
      .ok (.simpleError e, e.length + 3) := by
  have hscan : (e ++ 13 :: 10 :: rest).takeWhile (fun b => b != 13) = e := by
    rw [takeWhile_append_all _ _ _ (fun x hx => List.all_eq_true.mp he x hx)]
    simp [List.takeWhile_cons]
  have hlen : ((45 :: e) ++ 13 :: 10 :: rest).length = e.length + 3 + rest.length := by
    simp only [List.length_append, List.length_cons]
    omega
  have hdrop : ((45 :: e) ++ 13 :: 10 :: rest).drop 1 = e ++ 13 :: 10 :: rest := by
    rw [List.cons_append, List.drop_one, List.tail_cons]
  have h0 : ((45 :: e) ++ 13 :: 10 :: rest)[0]? = some 45 := by
    rw [List.cons_append]
    simp
  have hidx1 : 1 + e.length = (45 :: e : List Nat).length := by
    simp only [List.length_cons]
    omega
  simp only [decode_simple_error, hlen, hdrop, hscan, h0]
  rw [if_neg (by omega)]
  rw [if_neg (by simp)]
  rw [if_neg (by
    rw [hidx1, getElem_append_self]
    simp)]
  rw [if_neg (by
    rw [hidx1, getElem_append_succ]
    simp)]
  rw [if_pos hu]
  have hfin : 1 + e.length + 2 = e.length + 3 := by omega
  rw [hfin]

theorem parseI64_pos (n : Nat) (hn : (n : Int) ≤ 2 ^ 63 - 1) :
    parseI64 (natDigits n) = .ok (n : Int) := by
  obtain ⟨d, t, hdt, hd48, hd57⟩ := natDigits_exists_cons n
  rw [hdt]
  have h45 : (d == 45) = false := by
    simp only [beq_eq_false_iff_ne]
    omega
  have h43 : (d == 43) = false := by
    simp only [beq_eq_false_iff_ne]
    omega
  simp only [parseI64, h45, h43, Bool.false_eq_true, if_false, List.isEmpty_cons]
  rw [← hdt, natDigits_all_ascii n]
  simp only [if_true, digitsToNat_natDigits]
  rw [if_pos (by
    simp only [Bool.and_eq_true, decide_eq_true_eq]
    constructor
    · omega
    · exact hn)]

theorem parseI64_negDigits (n : Nat) (hn : (n : Int) ≤ 2 ^ 63) :
    parseI64 (45 :: natDigits n) = .ok (-(n : Int)) := by
  have h1 : ((45 : Nat) == 45) = true := rfl
  simp only [parseI64, h1, if_true, natDigits_isEmpty_false, Bool.false_eq_true, if_false,
    natDigits_all_ascii, digitsToNat_natDigits]
  rw [if_pos (by
    simp only [Bool.and_eq_true, decide_eq_true_eq]
    constructor
    · omega
    · omega)]

theorem decode_signed_int_enc (i : Int) (hlo : -(2 ^ 63) ≤ i) (hhi : i ≤ 2 ^ 63 - 1)
    (rest : List Nat) :
    decode_signed_int (intToBytes i ++ 13 :: 10 :: rest) = .ok (i, (intToBytes i).length) := by
  have h13 : is_numeric 13 = false := rfl
  by_cases hneg : i < 0
  · rw [intToBytes, if_pos hneg]
    have hm : (i.natAbs : Int) ≤ 2 ^ 63 := by omega
    have hbuf : (45 :: natDigits i.natAbs) ++ 13 :: 10 :: rest =
        45 :: (natDigits i.natAbs ++ 13 :: 10 :: rest) := by
      rw [List.cons_append]
    rw [hbuf]
    have h45 : ((45 : Nat) == 45) = true := rfl
    have hA45 : isAsciiDigit 45 = false := rfl
    simp only [decode_signed_int, List.getElem?_cons_zero, h45, hA45, Bool.false_or,
      Bool.true_or, if_true]
    rw [List.drop_one, List.tail_cons]
    rw [decode_unsigned_int_digits i.natAbs (13 :: 10 :: rest) (by omega)
      (fun b hb => by
        simp only [List.head?_cons, Option.some_inj] at hb
        exact hb ▸ h13)]
    have htake : (45 :: (natDigits i.natAbs ++ 13 :: 10 :: rest)).take
        (1 + (natDigits i.natAbs).length) = 45 :: natDigits i.natAbs := by
      have h1 : 1 + (natDigits i.natAbs).length = (natDigits i.natAbs).length + 1 := by omega
      rw [h1, List.take_succ_cons, List.take_left]
    have hi : -(i.natAbs : Int) = i := by omega
    simp only [htake, parseI64_negDigits i.natAbs hm, hi, List.length_cons]
    have hc : 1 + (natDigits i.natAbs).length = (natDigits i.natAbs).length + 1 := by omega
    rw [hc]
  · rw [intToBytes, if_neg hneg]
    have hni : (i.toNat : Int) = i := by omega
    obtain ⟨d, t, hdt, hd48, hd57⟩ := natDigits_exists_cons i.toNat
    have h0 : (natDigits i.toNat ++ 13 :: 10 :: rest)[0]? = some d := by
      rw [hdt, List.cons_append]
      simp
    have hdA : isAsciiDigit d = true := by
      simp only [isAsciiDigit, Bool.and_eq_true, decide_eq_true_eq]
      omega
    have hd45 : (d == 45) = false := by
      simp only [beq_eq_false_iff_ne]
      omega
    have h1 : ∃ b1, (natDigits i.toNat ++ 13 :: 10 :: rest)[1]? = some b1 ∧
        (b1 == 43) = false := by
      rw [hdt, List.cons_append]
      cases t with
      | nil =>
          exact ⟨13, by simp, rfl⟩
      | cons b1 t2 =>
          refine ⟨b1, by simp, ?_⟩
          have hb1 : b1 ∈ natDigits i.toNat := by
            rw [hdt]
            simp
          have := natDigits_all_digit i.toNat b1 hb1
          simp only [beq_eq_false_iff_ne]
          omega
    obtain ⟨b1, hb1eq, hb1ne⟩ := h1
    simp only [decode_signed_int, h0, hdA, Bool.true_or, if_true, hd45, Bool.false_eq_true,
      if_false, hb1eq, hb1ne, List.drop_zero]
    rw [decode_unsigned_int_digits i.toNat (13 :: 10 :: rest) (by omega)
      (fun b hb => by
        simp only [List.head?_cons, Option.some_inj] at hb
        exact hb ▸ h13)]
    simp only [Nat.zero_add, List.take_left, parseI64_pos i.toNat (by omega), hni]

theorem decode_integer_encode (i : Int) (hlo : -(2 ^ 63) ≤ i) (hhi : i ≤ 2 ^ 63 - 1)
    (rest : List Nat) :
    decode_integer ((58 :: intToBytes i) ++ 13 :: 10 :: rest) =
      .ok (.integer i, (intToBytes i).length + 3) := by
  have hLpos : 1 ≤ (intToBytes i).length := by
    have := intToBytes_ne_nil i
    cases h : intToBytes i with
    | nil => exact absurd h this
    | cons a t => simp [h]
  have hlen : ((58 :: intToBytes i) ++ 13 :: 10 :: rest).length =
      (intToBytes i).length + 3 + rest.length := by
    simp only [List.length_append, List.length_cons]
    omega
  have h0 : ((58 :: intToBytes i) ++ 13 :: 10 :: rest)[0]? = some 58 := by
    rw [List.cons_append]
    simp
  have hdrop : ((58 :: intToBytes i) ++ 13 :: 10 :: rest).drop 1 =
      intToBytes i ++ 13 :: 10 :: rest := by
    rw [List.cons_append, List.drop_one, List.tail_cons]
  have hidx1 : 1 + (intToBytes i).length = (58 :: intToBytes i : List Nat).length := by
    simp only [List.length_cons]
    omega
  simp only [decode_integer, hlen, h0, hdrop]
  rw [if_neg (by omega)]
  rw [if_neg (by simp)]
  rw [decode_signed_int_enc i hlo hhi rest]
  simp only []
  rw [if_neg (by omega)]
  rw [if_neg (by
    rw [hidx1, getElem_append_self]
    simp)]
  rw [if_neg (by
    rw [hidx1, getElem_append_succ]
    simp)]
  have hfin : 1 + (intToBytes i).length + 2 = (intToBytes i).length + 3 := by omega
  rw [hfin]

theorem decode_bulk_string_encode (s : List Nat)
    (h64 : s.length < 18446744073709551616) (rest : List Nat) :
    decode_bulk_string ((36 :: natDigits s.length) ++ 13 :: 10 :: (s ++ 13 :: 10 :: rest)) =
      .ok (.bulkString s, (natDigits s.length).length + s.length + 5) := by
  have h13 : is_numeric 13 = false := rfl
  obtain ⟨d, t, hdt, hd48, hd57⟩ := natDigits_exists_cons s.length
  have hdlen : (natDigits s.length).length = t.length + 1 := by
    rw [hdt]
    simp
  have hlen : ((36 :: natDigits s.length) ++ 13 :: 10 :: (s ++ 13 :: 10 :: rest)).length =
      (natDigits s.length).length + s.length + 5 + rest.length := by
    simp only [List.length_append, List.length_cons]
    omega
  have h0 : ((36 :: natDigits s.length) ++ 13 :: 10 :: (s ++ 13 :: 10 :: rest))[0]? =
      some 36 := by
    rw [List.cons_append]
    simp
  have h1 : ((36 :: natDigits s.length) ++ 13 :: 10 :: (s ++ 13 :: 10 :: rest))[1]? =
      some d := by
    rw [List.cons_append, hdt, List.cons_append]
    simp
  have hdrop : ((36 :: natDigits s.length) ++ 13 :: 10 :: (s ++ 13 :: 10 :: rest)).drop 1 =
      natDigits s.length ++ 13 :: 10 :: (s ++ 13 :: 10 :: rest) := by
    rw [List.cons_append, List.drop_one, List.tail_cons]
  simp only [decode_bulk_string, hlen, h0, h1, hdrop]
  rw [if_neg (by omega)]
  rw [if_neg (by simp)]
  rw [if_neg (by
    simp only [Option.some_inj]
    omega)]
  rw [decode_unsigned_int_digits s.length (13 :: 10 :: (s ++ 13 :: 10 :: rest)) h64
    (fun b hb => by
      simp only [List.head?_cons, Option.some_inj] at hb
      exact hb ▸ h13)]
  simp only []
  rw [if_neg (by omega)]
  rw [if_neg (by
    have hidx : 1 + (natDigits s.length).length =
        (36 :: natDigits s.length : List Nat).length := by
      simp only [List.length_cons]
      omega
    rw [hidx, getElem_append_self]
    simp)]
  rw [if_neg (by
    have hidx : 1 + (natDigits s.length).length + 1 =
        (36 :: natDigits s.length : List Nat).length + 1 := by
      simp only [List.length_cons]
      omega
    rw [hidx, getElem_append_succ]
    simp)]
  rw [if_neg (by omega)]
  have hdrop2 : ((36 :: natDigits s.length) ++ 13 :: 10 :: (s ++ 13 :: 10 :: rest)).drop
      (1 + (natDigits s.length).length + 2) = s ++ 13 :: 10 :: rest := by
    have hsh : (36 :: natDigits s.length) ++ 13 :: 10 :: (s ++ 13 :: 10 :: rest) =
        ((36 :: natDigits s.length) ++ [13, 10]) ++ (s ++ 13 :: 10 :: rest) := by
      simp
    have hidx : 1 + (natDigits s.length).length + 2 =
        ((36 :: natDigits s.length) ++ [13, 10] : List Nat).length := by
      simp only [List.length_append, List.length_cons, List.length_nil]
      omega
    rw [hsh, hidx, List.drop_left]
  rw [hdrop2, List.take_left]
  rw [if_neg (by omega)]
  rw [if_neg (by
    have hsh : (36 :: natDigits s.length) ++ 13 :: 10 :: (s ++ 13 :: 10 :: rest) =
        (((36 :: natDigits s.length) ++ [13, 10]) ++ s) ++ 13 :: 10 :: rest := by
      simp
    have hidx : 1 + (natDigits s.length).length + 2 + s.length =
        (((36 :: natDigits s.length) ++ [13, 10]) ++ s : List Nat).length := by
      simp only [List.length_append, List.length_cons, List.length_nil]
      omega
    rw [hsh, hidx, getElem_append_self]
    simp)]
  rw [if_neg (by
    have hsh : (36 :: natDigits s.length) ++ 13 :: 10 :: (s ++ 13 :: 10 :: rest) =
        (((36 :: natDigits s.length) ++ [13, 10]) ++ s) ++ 13 :: 10 :: rest := by
      simp
    have hidx : 1 + (natDigits s.length).length + 2 + s.length + 1 =
        (((36 :: natDigits s.length) ++ [13, 10]) ++ s : List Nat).length + 1 := by
      simp only [List.length_append, List.length_cons, List.length_nil]
      omega
    rw [hsh, hidx, getElem_append_succ]
    simp)]
  have hfin : 1 + (natDigits s.length).length + 2 + s.length + 2 =
      (natDigits s.length).length + s.length + 5 := by omega
  rw [hfin]

theorem decode_null_bulk_string_encode (rest : List Nat) :
    decode_bulk_string ([36, 45, 49, 13, 10] ++ rest) = .ok (.nullBulkString, 5) := by
  have hlen : ([36, 45, 49, 13, 10] ++ rest : List Nat).length = 5 + rest.length := by
    simp only [List.length_append, List.length_cons, List.length_nil]
    try omega
  simp only [decode_bulk_string, hlen]
  rw [if_neg (by omega)]
  rw [if_neg (by simp)]
  rw [if_pos (by simp)]
  rw [if_neg (by omega)]
  rw [if_neg (by
    rw [List.take_append_of_le_length (by simp)]
    simp)]

theorem wfList_mem {vs : List Data} (h : wfList vs = true) :
    ∀ v ∈ vs, v.wf = true := by
  induction vs with
  | nil => intro v hv; simp at hv
  | cons a t ih =>
      simp only [wfList, Bool.and_eq_true] at h
      intro v hv
      rcases List.mem_cons.mp hv with hv | hv
      · rw [hv]; exact h.1
      · exact ih h.2 v hv

theorem decodeElemsGo_encode (dec : List Nat → Except RErr (Data × Nat)) (fB : Nat)
    (vs : List Data)
    (hIH : ∀ v ∈ vs, ∀ tail, (v.encode ++ tail).length < fB →
      dec (v.encode ++ tail) = .ok (v, v.encode.length))
    (rest : List Nat) (hB : (encodeList vs ++ rest).length < fB) :
    decodeElemsGo dec (encodeList vs ++ rest) vs.length = .ok (vs, (encodeList vs).length) := by
  induction vs generalizing rest with
  | nil => simp [encodeList, decodeElemsGo]
  | cons v vs ih =>
      have hassoc : encodeList (v :: vs) ++ rest = v.encode ++ (encodeList vs ++ rest) := by
        simp [encodeList]
      rw [hassoc] at hB ⊢
      simp only [List.length_cons, decodeElemsGo]
      rw [hIH v (by simp) (encodeList vs ++ rest) hB]
      simp only []
      rw [List.drop_left]
      rw [ih (fun u hu tail htail => hIH u (by simp [hu]) tail htail)
        rest (by
          simp only [List.length_append] at hB ⊢
          omega)]
      simp [encodeList]

theorem decode_array_encode (dec : List Nat → Except RErr (Data × Nat)) (fB : Nat)
    (vs : List Data) (h64 : vs.length < 18446744073709551616)
    (hIH : ∀ v ∈ vs, ∀ tail, (v.encode ++ tail).length < fB →
      dec (v.encode ++ tail) = .ok (v, v.encode.length))
    (rest : List Nat) (hB : (encodeList vs ++ rest).length < fB) :
    decode_array dec ((42 :: natDigits vs.length) ++ 13 :: 10 :: (encodeList vs ++ rest)) =
      .ok (.array vs, (natDigits vs.length).length + (encodeList vs).length + 3) := by
  have h13 : is_numeric 13 = false := rfl
  obtain ⟨d, t, hdt, hd48, hd57⟩ := natDigits_exists_cons vs.length
  have hdlen : (natDigits vs.length).length = t.length + 1 := by
    rw [hdt]
    simp
  have hlen : ((42 :: natDigits vs.length) ++ 13 :: 10 :: (encodeList vs ++ rest)).length =
      (natDigits vs.length).length + (encodeList vs).length + 3 + rest.length := by
    simp only [List.length_append, List.length_cons]
    omega
  have h0 : ((42 :: natDigits vs.length) ++ 13 :: 10 :: (encodeList vs ++ rest))[0]? =
      some 42 := by
    rw [List.cons_append]
    simp
  have hdrop : ((42 :: natDigits vs.length) ++ 13 :: 10 :: (encodeList vs ++ rest)).drop 1 =
      natDigits vs.length ++ 13 :: 10 :: (encodeList vs ++ rest) := by
    rw [List.cons_append, List.drop_one, List.tail_cons]
  simp only [decode_array, hlen, h0, hdrop]
  rw [if_neg (by omega)]
  rw [if_neg (by simp)]
  rw [decode_unsigned_int_digits vs.length (13 :: 10 :: (encodeList vs ++ rest)) h64
    (fun b hb => by
      simp only [List.head?_cons, Option.some_inj] at hb
      exact hb ▸ h13)]
  simp only []
  rw [if_neg (by omega)]
  rw [if_neg (by
    have hidx : 1 + (natDigits vs.length).length =
        (42 :: natDigits vs.length : List Nat).length := by
      simp only [List.length_cons]
      omega
    rw [hidx, getElem_append_self]
    simp)]
  rw [if_neg (by
    have hidx : 1 + (natDigits vs.length).length + 1 =
        (42 :: natDigits vs.length : List Nat).length + 1 := by
      simp only [List.length_cons]
      omega
    rw [hidx, getElem_append_succ]
    simp)]
  have hdrop2 : ((42 :: natDigits vs.length) ++ 13 :: 10 :: (encodeList vs ++ rest)).drop
      (1 + (natDigits vs.length).length + 2) = encodeList vs ++ rest := by
    have hsh : (42 :: natDigits vs.length) ++ 13 :: 10 :: (encodeList vs ++ rest) =
        ((42 :: natDigits vs.length) ++ [13, 10]) ++ (encodeList vs ++ rest) := by
      simp
    have hidx : 1 + (natDigits vs.length).length + 2 =
        ((42 :: natDigits vs.length) ++ [13, 10] : List Nat).length := by
      simp only [List.length_append, List.length_cons, List.length_nil]
      omega
    rw [hsh, hidx, List.drop_left]
  rw [hdrop2]
  rw [decodeElemsGo_encode dec fB vs hIH rest hB]
  simp only []
  have hfin : 1 + (natDigits vs.length).length + 2 + (encodeList vs).length =
      (natDigits vs.length).length + (encodeList vs).length + 3 := by omega
  rw [hfin]

theorem natDigits_length_pos (n : Nat) : 1 ≤ (natDigits n).length := by
  have h := natDigits_ne_nil n
  cases hh : natDigits n with
  | nil => exact absurd hh h
  | cons a t => simp [hh]

theorem decodeAux_encode (f : Nat) : ∀ (v : Data), v.wf = true →
    ∀ rest, (v.encode ++ rest).length < f →
    decodeAux f (v.encode ++ rest) = .ok (v, v.encode.length) := by
  induction f with
  | zero =>
      intro v _ rest h
      exact absurd h (Nat.not_lt_zero _)
  | succ f ih =>
      intro v hwf rest hlen
      cases v with
      | simpleString s =>
          simp only [Data.wf] at hwf
          have hshape : (Data.simpleString s).encode ++ rest =
              43 :: (s ++ 13 :: 10 :: rest) := by
            simp [Data.encode]
          have hlen2 : (Data.simpleString s).encode.length = s.length + 3 := by
            simp only [Data.encode, List.cons_append, List.length_cons, List.length_append,
              List.length_nil]
            try omega
          rw [hshape, hlen2]
          simp only [decodeAux]
          rw [if_pos trivial]
          have hl := decode_simple_string_encode s hwf rest
          rw [List.cons_append] at hl
          exact hl
      | bulkString s =>
          simp only [Data.wf, decide_eq_true_eq] at hwf
          have hshape : (Data.bulkString s).encode ++ rest =
              36 :: (natDigits s.length ++ 13 :: 10 :: (s ++ 13 :: 10 :: rest)) := by
            simp [Data.encode]
          have hlen2 : (Data.bulkString s).encode.length =
              (natDigits s.length).length + s.length + 5 := by
            simp only [Data.encode, List.cons_append, List.length_cons, List.length_append,
              List.length_nil]
            try omega
          rw [hshape, hlen2]
          simp only [decodeAux]
          rw [if_pos trivial]
          have hl := decode_bulk_string_encode s hwf rest
          rw [List.cons_append] at hl
          exact hl
      | nullBulkString =>
          have hshape : (Data.nullBulkString).encode ++ rest =
              36 :: ([45, 49, 13, 10] ++ rest) := by
            simp [Data.encode]
          have hlen2 : (Data.nullBulkString).encode.length = 5 := by
            simp [Data.encode]
          rw [hshape, hlen2]
          simp only [decodeAux]
          rw [if_pos trivial]
          have hl := decode_null_bulk_string_encode rest
          rw [show ([36, 45, 49, 13, 10] ++ rest : List Nat) =
            36 :: ([45, 49, 13, 10] ++ rest) from by simp] at hl
          exact hl
      | integer i =>
          simp only [Data.wf, Bool.and_eq_true, decide_eq_true_eq] at hwf
          have hshape : (Data.integer i).encode ++ rest =
              58 :: (intToBytes i ++ 13 :: 10 :: rest) := by
            simp [Data.encode]
          have hlen2 : (Data.integer i).encode.length = (intToBytes i).length + 3 := by
            simp only [Data.encode, List.cons_append, List.length_cons, List.length_append,
              List.length_nil]
            try omega
          rw [hshape, hlen2]
          simp only [decodeAux]
          rw [if_pos trivial]
          have hl := decode_integer_encode i hwf.1 hwf.2 rest
          rw [List.cons_append] at hl
          exact hl
      | array vs =>
          simp only [Data.wf, Bool.and_eq_true, decide_eq_true_eq] at hwf
          obtain ⟨h64, hwfl⟩ := hwf
          have hshape : (Data.array vs).encode ++ rest =
              42 :: (natDigits vs.length ++ 13 :: 10 :: (encodeList vs ++ rest)) := by
            simp [Data.encode]
          have hlen2 : (Data.array vs).encode.length =
              (natDigits vs.length).length + (encodeList vs).length + 3 := by
            simp only [Data.encode, List.cons_append, List.length_cons, List.length_append,
              List.length_nil]
            try omega
          have hinner : (encodeList vs ++ rest).length < f := by
            have h1 : ((Data.array vs).encode ++ rest).length =
                (natDigits vs.length).length + (encodeList vs).length + 3 + rest.length := by
              simp only [Data.encode, List.cons_append, List.length_cons, List.length_append,
                List.length_nil]
              omega
            rw [h1] at hlen
            have h2 := natDigits_length_pos vs.length
            simp only [List.length_append]
            omega
          have hIH : ∀ v ∈ vs, ∀ tail, (v.encode ++ tail).length < f →
              decodeAux f (v.encode ++ tail) = .ok (v, v.encode.length) :=
            fun v hv tail ht => ih v (wfList_mem hwfl v hv) tail ht
          rw [hshape, hlen2]
          simp only [decodeAux]
          rw [if_pos trivial]
          have hl := decode_array_encode (decodeAux f) f vs h64 hIH rest hinner
          rw [List.cons_append] at hl
          exact hl
      | simpleError e =>
          simp only [Data.wf, Bool.and_eq_true] at hwf
          have hshape : (Data.simpleError e).encode ++ rest =
              45 :: (e ++ 13 :: 10 :: rest) := by
            simp [Data.encode]
          have hlen2 : (Data.simpleError e).encode.length = e.length + 3 := by
            simp only [Data.encode, List.cons_append, List.length_cons, List.length_append,
              List.length_nil]
            try omega
          rw [hshape, hlen2]
          simp only [decodeAux]
          rw [if_pos trivial]
          have hl := decode_simple_error_encode e hwf.1 hwf.2 rest
          rw [List.cons_append] at hl
          exact hl
      | unknown s =>
          simp [Data.wf] at hwf

/-- C1: for every RESP value of the five wire types (`wf` requires no
`Unknown`, no CR byte in simple strings and simple errors, and the
Rust type invariants: simple-error payloads are valid UTF-8, integers fit
`i64`, bulk-string and array lengths fit `usize`), decoding the encoding
succeeds and returns exactly the value together with the full encoded
length. -/
theorem c1_decode_encode_roundtrip (v : Data) (h : v.wf = true) :
    Data.decode v.encode = .ok (v, v.encode.length) := by
  have hmain := decodeAux_encode (v.encode.length + 1) v h [] (by simp)
  rw [List.append_nil] at hmain
  show decodeAux (v.encode.length + 1) v.encode = _
  exact hmain

/-- C1 witness: the round trip applied to the concrete nested value
`[+OK, :-42, $k, $-1, -ERR]`. -/
theorem c1_witness :
    Data.wf (Data.array [Data.simpleString [79, 75], Data.integer (-42),
      Data.bulkString [107], Data.nullBulkString, Data.simpleError [69, 82, 82]]) = true ∧
    Data.decode (Data.array [Data.simpleString [79, 75], Data.integer (-42),
      Data.bulkString [107], Data.nullBulkString,
      Data.simpleError [69, 82, 82]]).encode =
      .ok (Data.array [Data.simpleString [79, 75], Data.integer (-42),
        Data.bulkString [107], Data.nullBulkString, Data.simpleError [69, 82, 82]],
        (Data.array [Data.simpleString [79, 75], Data.integer (-42),
          Data.bulkString [107], Data.nullBulkString,
          Data.simpleError [69, 82, 82]]).encode.length) :=
  ⟨by decide, c1_decode_encode_roundtrip _ (by decide)⟩

/-- C2 (code bug): `encode (SimpleError "e")` is the four bytes
`[45, 101, 13, 10]`; its three-byte prefix `[45, 101, 13]` makes
`decode_simple_error` scan to the CR at index 2 and then read `buf[3]`,
which is past the end of the buffer — a Rust panic — instead of returning
`NeedMoreBytes` as every other decoder does (shorter prefixes of the same
encoding do return `NeedMoreBytes`). -/
theorem c2_truncated_simple_error_panics :
    [45, 101, 13] = ((Data.simpleError [101]).encode).take 3 ∧
    ((Data.simpleError [101]).encode).length = 4 ∧
    Data.decode [45] = .error .needMoreBytes ∧
    Data.decode [45, 101] = .error .needMoreBytes ∧
    Data.decode [45, 101, 13] = .error .panic :=
  ⟨rfl, rfl, rfl, rfl, rfl⟩

/-- Entry ids of `stream.rs`: a pair `(ms, seq)` of `u64`s with the derived
lexicographic order. -/
structure EntryId where
  ms : Nat
  seq : Nat
deriving Repr, DecidableEq

/-- The derived `PartialOrd`/`Ord` comparison `a <= b` on `(ms, seq)`. -/
def EntryId.le (a b : EntryId) : Bool :=
  a.ms < b.ms || (a.ms == b.ms && a.seq ≤ b.seq)

/-- The derived strict comparison `a < b` on `(ms, seq)`. -/
def EntryId.lt (a b : EntryId) : Bool :=
  a.ms < b.ms || (a.ms == b.ms && a.seq < b.seq)

theorem EntryId.le_iff (a b : EntryId) :
    a.le b = true ↔ (a.ms < b.ms ∨ (a.ms = b.ms ∧ a.seq ≤ b.seq)) := by
  simp [EntryId.le, Bool.or_eq_true, Bool.and_eq_true, decide_eq_true_eq, beq_iff_eq]

theorem EntryId.lt_iff (a b : EntryId) :
    a.lt b = true ↔ (a.ms < b.ms ∨ (a.ms = b.ms ∧ a.seq < b.seq)) := by
  simp [EntryId.lt, Bool.or_eq_true, Bool.and_eq_true, decide_eq_true_eq, beq_iff_eq]

theorem EntryId.le_refl (a : EntryId) : a.le a = true := by
  rw [EntryId.le_iff]
  omega

theorem EntryId.le_trans {a b c : EntryId} (h1 : a.le b = true) (h2 : b.le c = true) :
    a.le c = true := by
  rw [EntryId.le_iff] at *
  omega

theorem EntryId.lt_trans {a b c : EntryId} (h1 : a.lt b = true) (h2 : b.lt c = true) :
    a.lt c = true := by
  rw [EntryId.lt_iff] at *
  omega

theorem EntryId.le_of_not_le {a b : EntryId} (h : a.le b = false) : b.le a = true := by
  have h1 : ¬ a.le b = true := by simp [h]
  rw [EntryId.le_iff] at h1 ⊢
  omega

theorem EntryId.lt_of_not_le {a b : EntryId} (h : a.le b = false) : b.lt a = true := by
  have h1 : ¬ a.le b = true := by simp [h]
  rw [EntryId.le_iff] at h1
  rw [EntryId.lt_iff]
  omega

theorem EntryId.le_antisymm {a b : EntryId} (h1 : a.le b = true) (h2 : b.le a = true) :
    a = b := by
  rw [EntryId.le_iff] at h1 h2
  cases a with
  | mk ams aseq =>
      cases b with
      | mk bms bseq =>
          simp only at h1 h2
          have hms : ams = bms := by omega
          have hseq : aseq = bseq := by omega
          rw [hms, hseq]

theorem EntryId.le_of_lt {a b : EntryId} (h : a.lt b = true) : a.le b = true := by
  rw [EntryId.lt_iff] at h
  rw [EntryId.le_iff]
  omega

theorem EntryId.lt_of_le_of_lt {a b c : EntryId} (h1 : a.le b = true) (h2 : b.lt c = true) :
    a.lt c = true := by
  rw [EntryId.le_iff] at h1
  rw [EntryId.lt_iff] at *
  omega

/-- A stream entry: one field/value pair (`Entry` of `stream.rs`). -/
structure Entry where
  key : String
  value : String
deriving Repr, DecidableEq

/-- The error string `NOT_INCREASING_ERR_MSG` of `stream.rs`. -/
def NOT_INCREASING_ERR_MSG : String :=
  "ERR The ID specified in XADD is equal or smaller than the target stream top item"

/-- The error string `MIN_ID_ERR_MSG` of `stream.rs`. -/
def MIN_ID_ERR_MSG : String :=
  "ERR The ID specified in XADD must be greater than 0-0"

/-- The `Stream` struct of `stream.rs`: entries is a `BTreeMap<EntryId,
Vec<Entry>>` and subscribers a `BTreeMap<EntryId, Sender<()>>`.  Both are
modelled as association lists with unique keys; the `Sender` halves are
abstracted away, an append instead returns the list of subscriber ids that
were sent `()`. -/
structure RStream where
  entries : List (EntryId × List Entry)
  subscribers : List EntryId
deriving Repr, DecidableEq

/-- `BTreeMap::insert`, up to ordering of the representation (the only
observation the verified claims make of `entries` is `max_entry_id`). -/
def insertKV (entries : List (EntryId × List Entry)) (k : EntryId) (v : List Entry) :
    List (EntryId × List Entry) :=
  entries.filter (fun p => p.1 ≠ k) ++ [(k, v)]

/-- `Stream::max_entry_id` of `stream.rs`: the maximum key, or `(0,0)` for an
empty stream. -/
def RStream.max_entry_id (s : RStream) : EntryId :=
  s.entries.foldl (fun acc p => if acc.le p.1 then p.1 else acc) ⟨0, 0⟩

/-- `Stream::append` of `stream.rs`.  Validates that the id is strictly
greater than `(0,0)` and than the current maximum, inserts, sends `()` to
every subscriber registered strictly below the new id and removes them, and
finally also removes the subscriber registered at exactly the new id
(without sending).  Returns the new stream and the ids that were sent
`()`. -/
def RStream.append (s : RStream) (entry_id : EntryId) (entries : List Entry) :
    Except String (RStream × List EntryId) :=
  if entry_id.le ⟨0, 0⟩ then .error MIN_ID_ERR_MSG
  else if entry_id.le s.max_entry_id then .error NOT_INCREASING_ERR_MSG
  else
    let woken := s.subscribers.filter (fun e => e.lt entry_id)
    let remaining :=
      (s.subscribers.filter (fun e => !(e.lt entry_id))).filter (fun e => e ≠ entry_id)
    .ok (⟨insertKV s.entries entry_id entries, remaining⟩, woken)

/-- `Stream::subscribe_entries_after` of `stream.rs`: registers a subscriber
keyed by the waited-past id (`BTreeMap::insert` on the subscriber map). -/
def RStream.subscribe_entries_after (s : RStream) (entryid : EntryId) : RStream :=
  ⟨s.entries, s.subscribers.filter (fun e => e ≠ entryid) ++ [entryid]⟩

theorem foldl_max_acc_le (l : List (EntryId × List Entry)) :
    ∀ acc : EntryId,
      acc.le (l.foldl (fun a p => if a.le p.1 then p.1 else a) acc) = true := by
  induction l with
  | nil => intro acc; exact EntryId.le_refl acc
  | cons q t ih =>
      intro acc
      simp only [List.foldl_cons]
      by_cases h : acc.le q.1 = true
      · rw [if_pos h]
        exact EntryId.le_trans h (ih q.1)
      · rw [if_neg h]
        exact ih acc

theorem foldl_max_key_le (l : List (EntryId × List Entry)) :
    ∀ acc : EntryId, ∀ p ∈ l,
      p.1.le (l.foldl (fun a p => if a.le p.1 then p.1 else a) acc) = true := by
  induction l with
  | nil => intro acc p hp; simp at hp
  | cons q t ih =>
      intro acc p hp
      simp only [List.foldl_cons]
      rcases List.mem_cons.mp hp with hp | hp
      · rw [hp]
        by_cases h : acc.le q.1 = true
        · rw [if_pos h]
          exact foldl_max_acc_le t q.1
        · rw [if_neg h]
          have h2 : q.1.le acc = true :=
            EntryId.le_of_not_le (Bool.eq_false_iff.mpr h)
          exact EntryId.le_trans h2 (foldl_max_acc_le t acc)
      · exact ih _ p hp

theorem foldl_max_cases (l : List (EntryId × List Entry)) :
    ∀ acc : EntryId,
      l.foldl (fun a p => if a.le p.1 then p.1 else a) acc = acc ∨
      ∃ p ∈ l, l.foldl (fun a p => if a.le p.1 then p.1 else a) acc = p.1 := by
  induction l with
  | nil => intro acc; left; rfl
  | cons q t ih =>
      intro acc
      simp only [List.foldl_cons]
      by_cases h : acc.le q.1 = true
      · rw [if_pos h]
        rcases ih q.1 with hc | ⟨p, hp, hc⟩
        · right; exact ⟨q, by simp, hc⟩
        · right; exact ⟨p, by simp [hp], hc⟩
      · rw [if_neg h]
        rcases ih acc with hc | ⟨p, hp, hc⟩
        · left; exact hc
        · right; exact ⟨p, by simp [hp], hc⟩

theorem append_ok_max (s : RStream) (id : EntryId) (es : List Entry) (s2 : RStream)
    (w : List EntryId) (h : s.append id es = .ok (s2, w)) :
    s.max_entry_id.lt id = true ∧ s2.max_entry_id = id := by
  unfold RStream.append at h
  by_cases h0 : id.le ⟨0, 0⟩ = true
  · rw [if_pos h0] at h
    exact Except.noConfusion h
  · rw [if_neg h0] at h
    by_cases h1 : id.le s.max_entry_id = true
    · rw [if_pos h1] at h
      exact Except.noConfusion h
    · rw [if_neg h1] at h
      simp only [Except.ok.injEq, Prod.mk.injEq] at h
      obtain ⟨hs2, _⟩ := h
      have hlt : s.max_entry_id.lt id = true :=
        EntryId.lt_of_not_le (Bool.eq_false_iff.mpr h1)
      refine ⟨hlt, ?_⟩
      rw [← hs2]
      show (insertKV s.entries id es).foldl
        (fun a p => if a.le p.1 then p.1 else a) ⟨0, 0⟩ = id
      unfold insertKV
      rw [List.foldl_append]
      simp only [List.foldl_cons, List.foldl_nil]
      set M := (s.entries.filter (fun p => p.1 ≠ id)).foldl
        (fun a p => if a.le p.1 then p.1 else a) ⟨0, 0⟩ with hM
      have hMle : M.le id = true := by
        rcases foldl_max_cases (s.entries.filter (fun p => p.1 ≠ id)) ⟨0, 0⟩ with hc |
          ⟨p, hp, hc⟩
        · rw [← hM] at hc
          rw [hc]
          exact EntryId.le_of_lt (EntryId.lt_of_not_le (Bool.eq_false_iff.mpr h0))
        · rw [← hM] at hc
          rw [hc]
          have hpm : p ∈ s.entries := (List.mem_filter.mp hp).1
          have hple : p.1.le s.max_entry_id = true :=
            foldl_max_key_le s.entries ⟨0, 0⟩ p hpm
          exact EntryId.le_of_lt (EntryId.lt_of_le_of_lt hple hlt)
      rw [if_pos hMle]

/-- Replay of a sequence of appends on one stream; returns the final stream
and the ids of the successful appends, in order. -/
def runAppends (s : RStream) : List (EntryId × List Entry) → RStream × List EntryId
  | [] => (s, [])
  | op :: rest =>
    match s.append op.1 op.2 with
    | .ok (s2, _) =>
      let r := runAppends s2 rest
      (r.1, op.1 :: r.2)
    | .error _ => runAppends s rest

theorem runAppends_ids_chain (ops : List (EntryId × List Entry)) :
    ∀ s : RStream,
      List.Chain' (fun a b : EntryId => a.lt b = true) (runAppends s ops).2 ∧
      ∀ x ∈ (runAppends s ops).2, s.max_entry_id.lt x = true := by
  induction ops with
  | nil =>
      intro s
      refine ⟨by simp [runAppends], ?_⟩
      intro x hx
      simp [runAppends] at hx
  | cons op rest ih =>
      intro s
      simp only [runAppends]
      cases hA : s.append op.1 op.2 with
      | error e =>
          exact ih s
      | ok pr =>
          obtain ⟨s2, w⟩ := pr
          obtain ⟨hmax_lt, hmax_eq⟩ := append_ok_max s op.1 op.2 s2 w hA
          obtain ⟨ihc, ihall⟩ := ih s2
          constructor
          · refine List.chain'_cons'.mpr ⟨?_, ihc⟩
            intro y hy
            have hym : y ∈ (runAppends s2 rest).2 := List.mem_of_mem_head? hy
            have := ihall y hym
            rw [hmax_eq] at this
            exact this
          · intro x hx
            rcases List.mem_cons.mp hx with hx | hx
            · rw [hx]
              exact hmax_lt
            · have hx2 := ihall x hx
              rw [hmax_eq] at hx2
              exact EntryId.lt_trans hmax_lt hx2

/-- C4: an XADD with id `(0,0)` fails with the MIN_ID error; an id at or
below the stream's current maximum fails with the not-increasing error; a
successful append has an id strictly above the previous maximum and becomes
the new maximum, so over any sequence of appends the successfully inserted
ids are strictly increasing. -/
theorem c4_xadd_validation (s : RStream) (id : EntryId) (es : List Entry) :
    (id = ⟨0, 0⟩ → s.append id es = .error MIN_ID_ERR_MSG) ∧
    (id ≠ ⟨0, 0⟩ → id.le s.max_entry_id = true →
      s.append id es = .error NOT_INCREASING_ERR_MSG) ∧
    (∀ s2 w, s.append id es = .ok (s2, w) →
      s.max_entry_id.lt id = true ∧ s2.max_entry_id = id) ∧
    (∀ ops : List (EntryId × List Entry),
      List.Chain' (fun a b : EntryId => a.lt b = true) (runAppends s ops).2) := by
  refine ⟨?_, ?_, ?_, ?_⟩
  · intro h
    rw [h]
    unfold RStream.append
    rw [if_pos (EntryId.le_refl ⟨0, 0⟩)]
  · intro hne hle
    have h0 : id.le ⟨0, 0⟩ = false := by
      rw [Bool.eq_false_iff]
      intro hc
      rw [EntryId.le_iff] at hc
      apply hne
      cases id with
      | mk ms seq =>
          simp only at hc
          have hms : ms = 0 := by omega
          have hseq : seq = 0 := by omega
          rw [hms, hseq]
    unfold RStream.append
    rw [if_neg (by simp [h0]), if_pos hle]
  · exact fun s2 w h => append_ok_max s id es s2 w h
  · exact fun ops => (runAppends_ids_chain ops s).1

/-- C4 witness: the three behaviours at concrete inputs: `XADD` of `0-0`
into an empty stream, `XADD` of `5-0` into a stream whose top id is `5-0`,
and a successful `XADD` of `1-0` into an empty stream. -/
theorem c4_witness :
    RStream.append ⟨[], []⟩ ⟨0, 0⟩ [] = .error MIN_ID_ERR_MSG ∧
    RStream.append ⟨[(⟨5, 0⟩, [])], []⟩ ⟨5, 0⟩ [] = .error NOT_INCREASING_ERR_MSG ∧
    ((⟨[], []⟩ : RStream).max_entry_id.lt ⟨1, 0⟩ = true ∧
      (⟨[(⟨1, 0⟩, [])], []⟩ : RStream).max_entry_id = ⟨1, 0⟩) :=
  ⟨(c4_xadd_validation ⟨[], []⟩ ⟨0, 0⟩ []).1 rfl,
   (c4_xadd_validation ⟨[(⟨5, 0⟩, [])], []⟩ ⟨5, 0⟩ []).2.1 (by decide) (by decide),
   (c4_xadd_validation ⟨[], []⟩ ⟨1, 0⟩ []).2.2.1 ⟨[(⟨1, 0⟩, [])], []⟩ [] rfl⟩

theorem c6_amended_subscriber_wakeup (s : RStream) (id : EntryId) (es : List Entry)
    (s2 : RStream) (w : List EntryId) (h : s.append id es = .ok (s2, w)) :
    (∀ e, e ∈ w ↔ (e ∈ s.subscribers ∧ e.lt id = true)) ∧
    (∀ e, e ∈ s2.subscribers ↔ (e ∈ s.subscribers ∧ e.lt id = false ∧ e ≠ id)) := by
  unfold RStream.append at h
  by_cases h0 : id.le ⟨0, 0⟩ = true
  · rw [if_pos h0] at h
    exact Except.noConfusion h
  · rw [if_neg h0] at h
    by_cases h1 : id.le s.max_entry_id = true
    · rw [if_pos h1] at h
      exact Except.noConfusion h
    · rw [if_neg h1] at h
      simp only [Except.ok.injEq, Prod.mk.injEq] at h
      obtain ⟨hs2, hw⟩ := h
      constructor
      · intro e
        rw [← hw]
        simp [List.mem_filter]
      · intro e
        rw [← hs2]
        show e ∈ (s.subscribers.filter (fun e => !(e.lt id))).filter
          (fun e => e ≠ id) ↔ _
        simp only [List.mem_filter, Bool.not_eq_true', decide_eq_true_eq]
        tauto

/-- C6 (counterexample): appending id `1-1` to an empty stream that has one
subscriber registered at waited-past id exactly `1-1` wakes nobody
(`1-1 < 1-1` is false) yet removes that subscriber: the subscriber map
afterwards is empty, where the claim requires every subscriber with
waited-past id ≥ the new id to remain registered. -/
theorem c6_counterexample :
    RStream.append ⟨[], [⟨1, 1⟩]⟩ ⟨1, 1⟩ [] = .ok (⟨[(⟨1, 1⟩, [])], []⟩, []) ∧
    EntryId.lt ⟨1, 1⟩ ⟨1, 1⟩ = false :=
  ⟨rfl, rfl⟩

/-- C6 witness: the amended wakeup behaviour at a concrete append: stream
subscribers `{0-5, 1-0, 2-0}`, append of id `1-0`: subscriber `0-5` (below)
is woken, `1-0` (equal) is silently removed, `2-0` (above) remains. -/
theorem c6_witness :
    ((⟨2, 0⟩ : EntryId) ∈ ([⟨2, 0⟩] : List EntryId) ↔
      ((⟨2, 0⟩ : EntryId) ∈ ([⟨0, 5⟩, ⟨1, 0⟩, ⟨2, 0⟩] : List EntryId) ∧
        EntryId.lt ⟨2, 0⟩ ⟨1, 0⟩ = false ∧ (⟨2, 0⟩ : EntryId) ≠ ⟨1, 0⟩)) :=
  (c6_amended_subscriber_wakeup ⟨[], [⟨0, 5⟩, ⟨1, 0⟩, ⟨2, 0⟩]⟩ ⟨1, 0⟩ []
    ⟨[(⟨1, 0⟩, [])], [⟨2, 0⟩]⟩ [⟨0, 5⟩] rfl).2 ⟨2, 0⟩

/-- Value of a list of decimal digit characters. -/
def charsToNat (cs : List Char) : Nat :=
  cs.foldl (fun a c => a * 10 + (c.toNat - 48)) 0

/-- Rust's `str::parse::<u64>`: optional leading `+`, then one or more ASCII
digits, value within the `u64` range. -/
def parseU64 (s : String) : Option Nat :=
  let cs := s.toList
  let ds := match cs with
    | '+' :: t => t
    | _ => cs
  if ds.isEmpty then none
  else if ds.all Char.isDigit then
    if charsToNat ds < 18446744073709551616 then some (charsToNat ds) else none
  else none

/-- `EntryId::create` of `stream.rs`, resolving an XADD id spec against the
stream's current maximum id.  `SystemTime::now` is passed in as `now_ms`.
Note the `"*"` branch sets `seq` to the literal `1` when `now_ms` equals
`curr_max.ms` (it does not read `curr_max.seq`), while the `"<ms>-*"` branch
uses `curr_max.seq + 1`. -/
def EntryId.create (s : String) (now_ms : Nat) (curr_max : EntryId) :
    Except String EntryId :=
  if s = "*" then
    let ms := now_ms
    let seq := if ms = curr_max.ms then 1 else 0
    .ok ⟨ms, seq⟩
  else
    match s.split (fun c => c = '-') with
    | [v0, v1] =>
      match parseU64 v0 with
      | none => .error "cannot parse ms"
      | some ms =>
        match parseU64 v1 with
        | some seq => .ok ⟨ms, seq⟩
        | none =>
          if v1 = "*" then
            .ok ⟨ms, if ms = curr_max.ms then curr_max.seq + 1
              else if ms = 0 then 1 else 0⟩
          else .error "panic: seq is neither a number nor a wildcard"
    | _ => .error "Expect 'ms-seq' format"

/-- C5 (code bug): resolving the id spec `"*"` when `now_ms = curr_max.ms = 5`
and `curr_max.seq = 1` yields seq `1` — the code hardcodes `1` instead of
`curr_max.seq + 1 = 2` — and the produced id `5-1` is not strictly above the
stream's top id `5-1`, so the XADD that asked for `"*"` is then rejected with
the not-increasing error (the parallel `"<ms>-*"` branch of `create` does use
`curr_max.seq + 1`). -/
theorem c5_star_hardcodes_seq_one :
    EntryId.create "*" 5 ⟨5, 1⟩ = .ok ⟨5, 1⟩ ∧
    (⟨5, 1⟩ : EntryId) ≠ ⟨5, 2⟩ ∧
    RStream.append ⟨[(⟨5, 1⟩, [])], []⟩ ⟨5, 1⟩ [] = .error NOT_INCREASING_ERR_MSG :=
  ⟨rfl, by decide, rfl⟩

/-- `ValueWrapper` of `store.rs`: a value (only `Value::String` exists, so
the payload is the string itself) with an optional absolute expiration
instant, modelled in milliseconds. -/
structure ValueWrapper where
  value : String
  expiration : Option Nat
deriving Repr, DecidableEq

/-- `ValueWrapper::has_expired`: an entry is expired when its expiration is
set and is ≤ the current time. -/
def ValueWrapper.has_expired (w : ValueWrapper) (now : Nat) : Bool :=
  match w.expiration with
  | none => false
  | some e => e ≤ now

/-- `Store::get` of `store.rs`: look the key up; if the entry has expired,
remove it and return nothing, else return its value.  Returns the result
together with the updated map. -/
def storeGet (map : List (String × ValueWrapper)) (key : String) (now : Nat) :
    Option String × List (String × ValueWrapper) :=
  match map.lookup key with
  | none => (none, map)
  | some w =>
    if w.has_expired now then (none, map.filter (fun p => p.1 ≠ key))
    else (some w.value, map)

/-- `Store::data` of `store.rs`: replace the map by its non-expired entries
and return the key→value snapshot of what was retained (this is what KEYS
enumerates). -/
def storeData (map : List (String × ValueWrapper)) (now : Nat) :
    List (String × ValueWrapper) × List (String × String) :=
  let retained := map.filter (fun p => !(p.2.has_expired now))
  (retained, retained.map (fun p => (p.1, p.2.value)))

theorem lookup_none_of_no_key {α : Type} (l : List (String × α)) (key : String)
    (h : ∀ p ∈ l, p.1 ≠ key) : l.lookup key = none := by
  induction l with
  | nil => rfl
  | cons q t ih =>
      obtain ⟨k, v⟩ := q
      have hk : (key == k) = false := by
        rw [beq_eq_false_iff_ne]
        intro hc
        exact h (k, v) (by simp) (by simp [hc])
      simp only [List.lookup, hk]
      exact ih (fun p hp => h p (by simp [hp]))

theorem mem_value_eq_of_lookup (l : List (String × ValueWrapper)) (key : String)
    (w : ValueWrapper) (hnd : (l.map Prod.fst).Nodup) (hlk : l.lookup key = some w) :
    ∀ p ∈ l, p.1 = key → p.2 = w := by
  induction l with
  | nil => intro p hp; simp at hp
  | cons q t ih =>
      obtain ⟨k, v⟩ := q
      simp only [List.map_cons, List.nodup_cons] at hnd
      intro p hp hpk
      by_cases hkey : key = k
      · have hbeq : (key == k) = true := by simp [hkey]
        simp only [List.lookup, hbeq] at hlk
        have hvw : v = w := by
          simpa using hlk
        rcases List.mem_cons.mp hp with hp | hp
        · rw [hp]
          simpa using hvw
        · exfalso
          apply hnd.1
          rw [← hkey, ← hpk]
          exact List.mem_map.mpr ⟨p, hp, rfl⟩
      · have hbeq : (key == k) = false := by simp [hkey]
        simp only [List.lookup, hbeq] at hlk
        rcases List.mem_cons.mp hp with hp | hp
        · exfalso
          apply hkey
          rw [← hpk, hp]
        · exact ih hnd.2 hlk p hp hpk

/-- C7: when the entry under `key` has an expiration instant ≤ now, `get`
returns nothing and removes the entry (a later lookup in the updated map
fails), and the `data()` snapshot used by KEYS omits the key.  The
`Nodup` hypothesis is the `HashMap` invariant that keys are unique. -/
theorem c7_expired_key_invisible (map : List (String × ValueWrapper)) (key : String)
    (now : Nat) (w : ValueWrapper) (e : Nat)
    (hnd : (map.map Prod.fst).Nodup)
    (hlk : map.lookup key = some w)
    (hexp : w.expiration = some e) (he : e ≤ now) :
    (storeGet map key now).1 = none ∧
    ((storeGet map key now).2).lookup key = none ∧
    ((storeData map now).2).lookup key = none := by
  have hx : w.has_expired now = true := by
    unfold ValueWrapper.has_expired
    rw [hexp]
    exact decide_eq_true he
  have hget : storeGet map key now = (none, map.filter (fun p => p.1 ≠ key)) := by
    simp only [storeGet, hlk, hx, if_true]
  refine ⟨by rw [hget], ?_, ?_⟩
  · rw [hget]
    apply lookup_none_of_no_key
    intro p hp
    have := (List.mem_filter.mp hp).2
    simpa using this
  · apply lookup_none_of_no_key
    intro q hq
    simp only [storeData, List.mem_map] at hq
    obtain ⟨p, hpret, hqp⟩ := hq
    rw [← hqp]
    simp only
    intro hc
    have hpm : p ∈ map := (List.mem_filter.mp hpret).1
    have hkeep := (List.mem_filter.mp hpret).2
    have hpw : p.2 = w := mem_value_eq_of_lookup map key w hnd hlk p hpm hc
    rw [hpw] at hkeep
    rw [hx] at hkeep
    simp at hkeep

/-- C7 witness: `SET k v PX 50`-style entry (expiration 50) read at time
100: GET misses and removes, and the KEYS snapshot omits the key. -/
theorem c7_witness :
    (storeGet [("k", ⟨"v", some 50⟩)] "k" 100).1 = none ∧
    ((storeGet [("k", ⟨"v", some 50⟩)] "k" 100).2).lookup "k" = none ∧
    ((storeData [("k", ⟨"v", some 50⟩)] 100).2).lookup "k" = none :=
  c7_expired_key_invisible [("k", ⟨"v", some 50⟩)] "k" 100 ⟨"v", some 50⟩ 50
    (by simp) rfl rfl (by omega)

/-- `u8::to_ascii_lowercase` mapped over a byte string. -/
def to_ascii_lowercase (s : List Nat) : List Nat :=
  s.map (fun b => if 65 ≤ b ∧ b ≤ 90 then b + 32 else b)

/-- `Resp2Frame::to_string` on an `OwnedFrame` (modelled by `Data`): simple
and bulk strings yield their payload when it is valid UTF-8, every other
frame yields nothing. -/
def frameToString (f : Data) : Option (List Nat) :=
  match f with
  | .simpleString s => if isValidUtf8 s then some s else none
  | .bulkString s => if isValidUtf8 s then some s else none
  | _ => none

/-- Rust's `str::parse::<u64>` on the bytes of an ASCII string: optional
leading `+`, then one or more digits, value within the `u64` range. -/
def parseU64Bytes (bs : List Nat) : Option Nat :=
  let ds := match bs with
    | 43 :: t => t
    | _ => bs
  if ds.isEmpty then none
  else if ds.all isAsciiDigit then
    if digitsToNat ds < 18446744073709551616 then some (digitsToNat ds) else none
  else none

/-- `Store::set` as used by the replica: insert/overwrite under the key,
with absolute expiration `now + expire_in` when a TTL is given
(`SystemTime::now() + Duration`).  Keys and values are byte strings. -/
def replicaSet (m : List (List Nat × (List Nat × Option Nat))) (key value : List Nat)
    (expire_in : Option Nat) (now : Nat) : List (List Nat × (List Nat × Option Nat)) :=
  m.filter (fun p => p.1 ≠ key) ++ [(key, (value, expire_in.map (fun e => now + e)))]

/-- The `Replica` state of `replica.rs` that `handle_propogation` can touch:
the replication offset (initialized to 0 in `Replica::new` and — note —
mutated nowhere in the source) and the local store. -/
structure ReplicaState where
  replication_offset : Nat
  store : List (List Nat × (List Nat × Option Nat))
deriving Repr, DecidableEq

/-- `Replica::handle_propogation` of `replica.rs`: only an array frame whose
first element reads `set` (case-insensitive) is handled — the arity is
asserted to be 3 or 5, the optional `PX <ms>` suffix is validated and parsed,
and the key/value pair is written to the local store.  Any other frame or
command panics (`todo!()` / `panic!("unknown command")`).  No branch touches
`replication_offset`. -/
def handle_propogation (st : ReplicaState) (frame : Data) (now : Nat) :
    Except RErr ReplicaState :=
  match frame with
  | .array values =>
    match values[0]? with
    | none => .error .panic
    | some f0 =>
      match frameToString f0 with
      | none => .error .other
      | some cmd =>
        if to_ascii_lowercase cmd = [115, 101, 116] then
          if values.length = 3 ∨ values.length = 5 then
            match values[1]? with
            | none => .error .panic
            | some f1 =>
              match frameToString f1 with
              | none => .error .other
              | some key =>
                match values[2]? with
                | none => .error .panic
                | some f2 =>
                  match frameToString f2 with
                  | none => .error .other
                  | some value =>
                    if values.length = 5 then
                      match values[3]? with
                      | none => .error .panic
                      | some f3 =>
                        match frameToString f3 with
                        | none => .error .other
                        | some px =>
                          if to_ascii_lowercase px = [112, 120] then
                            match values[4]? with
                            | none => .error .panic
                            | some f4 =>
                              match frameToString f4 with
                              | none => .error .other
                              | some expStr =>
                                match parseU64Bytes expStr with
                                | none => .error .other
                                | some ms =>
                                  .ok { st with
                                    store := replicaSet st.store key value (some ms) now }
                          else .error .panic
                    else
                      .ok { st with store := replicaSet st.store key value none now }
          else .error .panic
        else .error .panic
  | _ => .error .panic

/-- C3 (counterexample): the replica successfully decodes and applies the
propagated array `SET k v` (27 encoded bytes), yet its
`replication_offset` stays `0` instead of advancing to `0 + 27`: no code
path of `handle_propogation` (or of the worker loop around it) writes the
field. -/
theorem c3_counterexample :
    handle_propogation ⟨0, []⟩
      (Data.array [Data.bulkString [115, 101, 116], Data.bulkString [107],
        Data.bulkString [118]]) 0 =
      .ok ⟨0, [([107], ([118], none))]⟩ ∧
    (Data.array [Data.bulkString [115, 101, 116], Data.bulkString [107],
      Data.bulkString [118]]).num_bytes = 27 ∧
    (0 : Nat) ≠ 0 + 27 :=
  ⟨rfl, rfl, by omega⟩

/-- C3 (amended): every successfully handled frame from the master leaves
the replica's `replication_offset` exactly unchanged — the field is never
advanced. -/
theorem c3_amended_offset_unchanged (st : ReplicaState) (frame : Data) (now : Nat)
    (st2 : ReplicaState) (h : handle_propogation st frame now = .ok st2) :
    st2.replication_offset = st.replication_offset := by
  unfold handle_propogation at h
  repeat' split at h
  all_goals
    first
      | exact Except.noConfusion h
      | (injection h with h1; rw [← h1])

/-- C3 witness: the amended statement applied to the concrete `SET k v`
propagation. -/
theorem c3_witness :
    (⟨0, [([107], ([118], none))]⟩ : ReplicaState).replication_offset =
      (⟨0, []⟩ : ReplicaState).replication_offset :=
  c3_amended_offset_unchanged ⟨0, []⟩
    (Data.array [Data.bulkString [115, 101, 116], Data.bulkString [107],
      Data.bulkString [118]]) 0 ⟨0, [([107], ([118], none))]⟩ rfl

/-- The `REPLCONF GETACK *` array that `handle_wait` broadcasts. -/
def getackData : Data :=
  .array [.bulkString [82, 69, 80, 76, 67, 79, 78, 70],
    .bulkString [71, 69, 84, 65, 67, 75], .bulkString [42]]

/-- Observable outcome of `Master::handle_wait` of `master.rs`: the integer
reply written to the client, the frames written to the replica connections,
and the master's replication offset afterwards. -/
structure WaitOutcome where
  reply : Data
  sent_to_replicas : List Data
  new_offset : Nat

/-- `Master::handle_wait` of `master.rs`.  When the requested replica count
and the current offset are both positive it broadcasts `REPLCONF GETACK *`
to every replica, waits (with timeout) for ACKs — `cnt` abstracts the value
of the shared counter when the timed wait returns, the one
concurrency-dependent quantity — replies `:cnt`, and advances the offset by
the GETACK array's byte length.  Otherwise it immediately replies with the
number of connected replicas, sends nothing, and leaves the offset
untouched. -/
def handle_wait (replica_count replication_offset num_replicas_to_wait cnt : Nat) :
    WaitOutcome :=
  if num_replicas_to_wait > 0 && replication_offset > 0 then
    { reply := .integer (Int.ofNat cnt),
      sent_to_replicas := List.replicate replica_count getackData,
      new_offset := replication_offset + getackData.num_bytes }
  else
    { reply := .integer (Int.ofNat replica_count),
      sent_to_replicas := [],
      new_offset := replication_offset }

/-- C9: a WAIT with requested count 0 or with replication offset 0
immediately replies with the number of connected replicas, broadcasts no
GETACK, and leaves the replication offset unchanged. -/
theorem c9_wait_fast_path (replica_count replication_offset num_replicas_to_wait cnt : Nat)
    (h : num_replicas_to_wait = 0 ∨ replication_offset = 0) :
    handle_wait replica_count replication_offset num_replicas_to_wait cnt =
      { reply := .integer (Int.ofNat replica_count),
        sent_to_replicas := [],
        new_offset := replication_offset } := by
  unfold handle_wait
  rw [if_neg]
  simp only [Bool.and_eq_true, decide_eq_true_eq]
  omega

/-- C9 witness: `WAIT 0 100` with 3 replicas and offset 100 replies `:3`
immediately. -/
theorem c9_witness :
    handle_wait 3 100 0 7 =
      { reply := .integer (Int.ofNat 3), sent_to_replicas := [], new_offset := 100 } :=
  c9_wait_fast_path 3 100 0 7 (Or.inl rfl)

/-- The `Length` result of the RDB length decoder (`rdb.rs`). -/
inductive Length where
  | encodedAsInt (v : Nat)
  | encodedAsString (v : Nat)
deriving Repr, DecidableEq

/-- `Length::to_usize` of `rdb.rs`. -/
def Length.to_usize : Length → Nat
  | .encodedAsInt v => v
  | .encodedAsString v => v

/-- `decode_length_00` of `rdb.rs`: the whole first byte (whose top two bits
are 00) is the length. -/
def decode_length_00 (first_byte : Nat) : Nat := first_byte

/-- `decode_length_01` of `rdb.rs`, byte-for-byte: the low 6 bits of the
first byte are the LOW bits of the length and the second byte supplies the
high bits: `(b1 << 6) | (b0 & 0x3F)`. -/
def decode_length_01 (b0 b1 : Nat) : Nat :=
  let first_byte := b0 &&& 63
  let second_byte := b1
  (second_byte <<< 6) ||| first_byte

/-- `decode_length` of `rdb.rs` over a byte stream, dispatching on the top
two bits of the first byte; returns the decoded length and the number of
bytes consumed.  A short read (`read_exact` failing at end of stream) is a
plain error; the failed `assert!` in the `11` arm and the `todo!()` fallback
are panics. -/
def decode_length (bytes : List Nat) : Except RErr (Length × Nat) :=
  match bytes with
  | [] => .error .other
  | b0 :: rest =>
    match b0 >>> 6 with
    | 0 => .ok (.encodedAsInt (decode_length_00 b0), 1)
    | 1 =>
      match rest with
      | [] => .error .other
      | b1 :: _ => .ok (.encodedAsInt (decode_length_01 b0 b1), 2)
    | 2 =>
      match rest with
      | b1 :: b2 :: b3 :: b4 :: _ =>
          .ok (.encodedAsInt (b1 + b2 * 256 + b3 * 65536 + b4 * 16777216), 5)
      | _ => .error .other
    | 3 =>
      let remaining_bits := b0 &&& 63
      if remaining_bits ≤ 2 then
        match remaining_bits with
        | 0 =>
          match rest with
          | b1 :: _ => .ok (.encodedAsString b1, 2)
          | _ => .error .other
        | 1 =>
          match rest with
          | b1 :: b2 :: _ => .ok (.encodedAsString (b1 + b2 * 256), 3)
          | _ => .error .other
        | _ =>
          match rest with
          | b1 :: b2 :: b3 :: b4 :: _ =>
              .ok (.encodedAsString (b1 + b2 * 256 + b3 * 65536 + b4 * 16777216), 5)
          | _ => .error .other
      else .error .panic
    | _ + 4 => .error .panic

/-- C8 (counterexample): for the two-byte length encoding `b0 = 0x41`,
`b1 = 0x01` (top bits of `b0` are 01), the code decodes length
`(b1 << 6) | (b0 & 0x3F) = 65` — its own unit test asserts exactly this —
while the claim's formula `((b0 & 0x3F) << 8) | b1` gives `257`. -/
theorem c8_counterexample :
    decode_length [65, 1] = .ok (.encodedAsInt 65, 2) ∧
    decode_length_01 65 1 = 65 ∧
    (((65 &&& 63) <<< 8) ||| 1) = 257 ∧
    (65 : Nat) ≠ 257 :=
  ⟨rfl, rfl, by decide, by decide⟩

/-- C8 (amended): for every two-byte RDB length encoding whose first byte
has top bits 01, the decoded length is `(b1 << 6) | (b0 & 0x3F)` and two
bytes are consumed. -/
theorem c8_amended_length_01 (b0 b1 : Nat) (rest : List Nat) (h : b0 >>> 6 = 1) :
    decode_length (b0 :: b1 :: rest) =
      .ok (.encodedAsInt ((b1 <<< 6) ||| (b0 &&& 63)), 2) := by
  simp only [decode_length, h, decode_length_01]

/-- C8 witness: the amended formula at the concrete bytes `0x7F 0xFF`
(length 16383, the maximum 14-bit value, also asserted by the code's unit
test). -/
theorem c8_witness :
    decode_length [127, 255] = .ok (.encodedAsInt ((255 <<< 6) ||| (127 &&& 63)), 2) :=
  c8_amended_length_01 127 255 [] rfl

theorem decode_unsigned_int_ok_pos (b : List Nat) (v n : Nat)
    (h : decode_unsigned_int b = .ok (v, n)) : 1 ≤ n := by
  unfold decode_unsigned_int at h
  by_cases he : (b.takeWhile is_numeric).isEmpty = true
  · rw [if_pos he] at h
    exact Except.noConfusion h
  · rw [if_neg he] at h
    split at h
    · simp only [Except.ok.injEq, Prod.mk.injEq] at h
      obtain ⟨_, hn⟩ := h
      rw [← hn]
      cases hb : b.takeWhile is_numeric with
      | nil => rw [hb] at he; exact absurd rfl he
      | cons x xs => simp [hb]
    · exact Except.noConfusion h

theorem decodeElemsGo_congr (d1 d2 : List Nat → Except RErr (Data × Nat))
    (c : Nat) :
    ∀ buf : List Nat, (∀ b : List Nat, b.length ≤ buf.length → d1 b = d2 b) →
    decodeElemsGo d1 buf c = decodeElemsGo d2 buf c := by
  induction c with
  | zero => intro buf _; rfl
  | succ c ih =>
      intro buf h
      simp only [decodeElemsGo]
      rw [h buf (Nat.le_refl _)]
      cases d2 buf with
      | error e => rfl
      | ok pr =>
          obtain ⟨d, n⟩ := pr
          simp only []
          rw [ih (buf.drop n) (fun b hb => h b (by
            simp only [List.length_drop] at hb
            omega))]

theorem decode_array_congr (d1 d2 : List Nat → Except RErr (Data × Nat))
    (buf : List Nat)
    (h : ∀ b : List Nat, b.length + 4 ≤ buf.length → d1 b = d2 b) :
    decode_array d1 buf = decode_array d2 buf := by
  unfold decode_array
  by_cases h4 : buf.length < 4
  · rw [if_pos h4, if_pos h4]
  · rw [if_neg h4, if_neg h4]
    by_cases h0 : buf[0]? = some 42
    · have h0n : ¬(buf[0]? ≠ some 42) := by simp [h0]
      rw [if_neg h0n, if_neg h0n]
      cases hdu : decode_unsigned_int (buf.drop 1) with
      | error e => rfl
      | ok pr =>
          obtain ⟨len, nb⟩ := pr
          have hnb : 1 ≤ nb := decode_unsigned_int_ok_pos _ _ _ hdu
          simp only []
          rw [decodeElemsGo_congr d1 d2 len (buf.drop (1 + nb + 2))
            (fun b hb => h b (by
              simp only [List.length_drop] at hb
              omega))]
    · rw [if_pos (by simp [h0]), if_pos (by simp [h0])]

/-- Fuel-irrelevance of the decoder core: any fuel strictly above the buffer
length gives the same result, because each array-nesting level strips at
least four header bytes before recursing.  This justifies the fuel
`buf.length + 1` in `Data.decode`: the fuel-exhaustion branch of
`decodeAux` is unreachable and the function computes exactly the source's
unbounded recursion. -/
theorem decodeAux_congr (f : Nat) : ∀ (g : Nat) (buf : List Nat),
    buf.length < f → buf.length < g → decodeAux f buf = decodeAux g buf := by
  induction f with
  | zero =>
      intro g buf hf _
      exact absurd hf (Nat.not_lt_zero _)
  | succ f ih =>
      intro g buf hf hg
      cases g with
      | zero => exact absurd hg (Nat.not_lt_zero _)
      | succ g =>
          simp only [decodeAux]
          cases buf with
          | nil => rfl
          | cons b t =>
              simp only []
              by_cases hb42 : b = 42
              · simp only [hb42]
                norm_num
                apply decode_array_congr
                intro bb hbb
                simp only [List.length_cons] at hf hg hbb
                exact ih g bb (by omega) (by omega)
              · by_cases hb43 : b = 43
                · simp [hb43]
                · by_cases hb36 : b = 36
                  · simp [hb36]
                  · by_cases hb58 : b = 58
                    · simp [hb58]
                    · simp only [if_neg hb43, if_neg hb36, if_neg hb58, if_neg hb42]

/-- `Data.decode` equals the decoder core at every sufficient fuel. -/
theorem decode_eq_decodeAux (buf : List Nat) (f : Nat) (hf : buf.length < f) :
    Data.decode buf = decodeAux f buf :=
  decodeAux_congr (buf.length + 1) f buf (Nat.lt_succ_self _) hf
